import Mathlib

/-!
Verification of the porkbun DNS provider (provider/porkbun.go).

Go strings are modelled as `List Char` (a Go string literal `"s"` appears as
`"s".toList`).  The porkbun API client is an external capability and is
modelled as an abstract function where a claim needs it; everything else is
translated from the source.
-/

namespace Porkbun

/-- strings.HasSuffix(s, suffix): len(s) >= len(suffix) and the last
len(suffix) bytes of s equal suffix. -/
def goHasSuffix (s suffix : List Char) : Bool :=
  decide (suffix.length ≤ s.length) && decide (s.drop (s.length - suffix.length) = suffix)

/-- strings.HasPrefix(s, p): len(s) >= len(p) and the first len(p) bytes of
s equal p. -/
def goStartsWith (s p : List Char) : Bool :=
  decide (p.length ≤ s.length) && decide (s.take p.length = p)

/-- strings.TrimSuffix(s, suffix): s without the trailing suffix when
present, s unchanged otherwise. -/
def goTrimSuffix (s suffix : List Char) : List Char :=
  if goHasSuffix s suffix then s.take (s.length - suffix.length) else s

/-- strings.Trim(s, cutset) for a one-character cutset: all leading and
trailing occurrences of c are removed. -/
def goTrimChar (s : List Char) (c : Char) : List Char :=
  ((s.dropWhile (fun a => a = c)).reverse.dropWhile (fun a => a = c)).reverse

/-- strconv.FormatInt(i, 10): decimal digits, with a leading '-' when i is
negative. -/
def goFormatInt (i : Int) : List Char :=
  if i < 0 then '-' :: Nat.toDigits 10 i.natAbs else Nat.toDigits 10 i.toNat

/-- strconv.Atoi(s): optional sign, then at least one decimal digit and
nothing else, value within the 64-bit int range; none on any error. -/
def goAtoi (s : List Char) : Option Int :=
  match s with
  | [] => none
  | c :: rest =>
    let digits := if c = '-' ∨ c = '+' then rest else s
    let neg := c = '-'
    if digits = [] then none
    else if digits.all (fun d => decide ('0' ≤ d) && decide (d ≤ '9')) then
      let n : Nat := digits.foldl (fun acc d => acc * 10 + (d.toNat - '0'.toNat)) 0
      let v : Int := if neg then -(n : Int) else (n : Int)
      if -(2 ^ 63) ≤ v ∧ v < 2 ^ 63 then some v else none
    else none

/-- strings.Split(s, sep)[0] for a one-character separator: the longest
leading run of s without the separator. -/
def goSplitFirst (s : List Char) (c : Char) : List Char :=
  s.takeWhile (fun a => a ≠ c)

/-- pb.Record (the porkbun API record type): the fields the provider uses.
The Go field `Type` is called `rtype` here (`Type` is reserved in Lean). -/
structure Record where
  id : List Char
  name : List Char
  rtype : List Char
  content : List Char
  ttl : List Char
deriving DecidableEq, Repr

/-- endpoint.Endpoint (external-dns): the fields the provider uses. -/
structure Endpoint where
  dnsName : List Char
  targets : List (List Char)
  recordType : List Char
  recordTTL : Int
deriving DecidableEq, Repr

/-- endpoint.RecordTypeTXT. -/
def recordTypeTXT : List Char := "TXT".toList

/-- plan.Changes: the four endpoint lists of a change batch. -/
structure Changes where
  create : List Endpoint
  updateOld : List Endpoint
  updateNew : List Endpoint
  delete : List Endpoint
deriving DecidableEq, Repr

/-- getIDforRecord: first record of recs whose type and name match; under
strict matching the content must also equal target.  Empty when none. -/
def getIDforRecord (recordName target recordType : List Char) (recs : List Record)
    (useStrictMatchForDelete : Bool) : List Char :=
  match recs with
  | [] => []
  | r :: rest =>
    if r.rtype ≠ recordType ∨ r.name ≠ recordName then
      getIDforRecord recordName target recordType rest useStrictMatchForDelete
    else if useStrictMatchForDelete = true ∧ target ≠ r.content then
      getIDforRecord recordName target recordType rest useStrictMatchForDelete
    else r.id

/-- convertToPorkbunRecord: endpoints to porkbun records in a zone.  The
logger argument of the Go function carries no data flow and is dropped;
the `continue` on an endpoint without targets is the recursive skip. -/
def convertToPorkbunRecord (recs : List Record) (endpoints : List Endpoint)
    (zoneName : List Char) (useStrictMatchForDelete : Bool) : List Record :=
  match endpoints with
  | [] => []
  | ep :: rest =>
    let fqdn := ep.dnsName
    let recordName := if fqdn = zoneName then [] else goTrimSuffix fqdn ('.' :: zoneName)
    match ep.targets with
    | [] => convertToPorkbunRecord recs rest zoneName useStrictMatchForDelete
    | t0 :: _ =>
      let target :=
        if ep.recordType = recordTypeTXT ∧ goStartsWith t0 ("\"heritage=".toList) = true then
          goTrimChar t0 '"'
        else t0
      let id := getIDforRecord fqdn target ep.recordType recs useStrictMatchForDelete
      { rtype := ep.recordType, name := recordName, ttl := goFormatInt ep.recordTTL,
        content := target, id := id } ::
        convertToPorkbunRecord recs rest zoneName useStrictMatchForDelete

/-- The oldMap of removeNoopTXTUpdates: TXT entries of UpdateOld that have a
target are inserted under the key (DNSName, Targets[0]); a Go map insert
overwrites, so the lookup returns the last inserted entry for the key. -/
def oldMapLookup (updateOld : List Endpoint) (name t0 : List Char) : Option Endpoint :=
  updateOld.foldl
    (fun acc ep =>
      if ep.recordType = recordTypeTXT ∧ ep.dnsName = name ∧ ep.targets.head? = some t0 then
        some ep
      else acc)
    none

/-- The filter predicate of removeNoopTXTUpdates: keep an UpdateNew entry
unless it is a TXT no-op (an oldMap entry under its key exists with the
same TTL). -/
def keepUpdateNew (updateOld : List Endpoint) (ep : Endpoint) : Bool :=
  if ep.recordType ≠ recordTypeTXT ∨ ep.targets = [] then true
  else
    match oldMapLookup updateOld ep.dnsName (ep.targets.headD []) with
    | some old => decide (old.recordTTL ≠ ep.recordTTL)
    | none => true

/-- removeNoopTXTUpdates: drops unchanged TXT updates from UpdateNew;
returns the batch unchanged when UpdateOld or UpdateNew is empty. -/
def removeNoopTXTUpdates (c : Changes) : Changes :=
  if c.updateOld = [] ∨ c.updateNew = [] then c
  else { c with updateNew := c.updateNew.filter (keepUpdateNew c.updateOld) }

/-- The loop of endpointZoneName: matchZoneName is replaced by a zone that
is a suffix of the DNS name and strictly longer than the current match. -/
def endpointZoneNameLoop (dnsName : List Char) (zones : List (List Char))
    (matchZoneName : List Char) : List Char :=
  match zones with
  | [] => matchZoneName
  | z :: rest =>
    if goHasSuffix dnsName z = true ∧ z.length > matchZoneName.length then
      endpointZoneNameLoop dnsName rest z
    else
      endpointZoneNameLoop dnsName rest matchZoneName

/-- endpointZoneName: the longest zone of the list that is a suffix of the
endpoint's DNS name, empty when none matches. -/
def endpointZoneName (dnsName : List Char) (zones : List (List Char)) : List Char :=
  endpointZoneNameLoop dnsName zones []

/-- Outcome of DeleteDnsRecords / UpdateDnsRecords: success, a record whose
ID did not parse, or a failed provider call (ε is the client's error type). -/
inductive WriteResult (ε : Type) where
  | ok : WriteResult ε
  | parseFailure : Record → WriteResult ε
  | callFailure : ε → WriteResult ε
deriving DecidableEq, Repr

/-- DeleteDnsRecords: per record, parse the ID with strconv.Atoi (returning
at the first failure) and issue the client's delete call (returning at the
first failing call).  The client is the abstract `call`; the first
component lists the IDs for which a call was issued, in order. -/
def deleteDnsRecords {ε : Type} (call : Int → Option ε) :
    List Record → List Int × WriteResult ε
  | [] => ([], .ok)
  | r :: rest =>
    match goAtoi r.id with
    | none => ([], .parseFailure r)
    | some id =>
      match call id with
      | some e => ([id], .callFailure e)
      | none =>
        let res := deleteDnsRecords call rest
        (id :: res.1, res.2)

/-- UpdateDnsRecords: same shape as deleteDnsRecords, the client's edit
call also receives the record. -/
def updateDnsRecords {ε : Type} (call : Int → Record → Option ε) :
    List Record → List Int × WriteResult ε
  | [] => ([], .ok)
  | r :: rest =>
    match goAtoi r.id with
    | none => ([], .parseFailure r)
    | some id =>
      match call id r with
      | some e => ([id], .callFailure e)
      | none =>
        let res := updateDnsRecords call rest
        (id :: res.1, res.2)

/-- The per-record projection of Records() for one domain: the endpoint
name is the record name, or the domain when the first dot-separated label
is "@"; a TTL that does not parse becomes 600. -/
def recordsToEndpoints (domain : List Char) (recs : List Record) : List Endpoint :=
  recs.map (fun rec =>
    let nameStart := goSplitFirst rec.name '.'
    let name := if nameStart = "@".toList then domain else rec.name
    let ttl : Int :=
      match goAtoi rec.ttl with
      | some t => t
      | none => 600
    { dnsName := name, recordType := rec.rtype, recordTTL := ttl,
      targets := [rec.content] })

/-- The per-zone loop of ApplyChanges: zones without changes are skipped,
applyChangesToZone is the abstract `applyZone`, an error is kept only when
it is the first one.  The first component lists the zone batches for which
applyZone was invoked, in order. -/
def applyLoop {β ε : Type} (hasChanges : β → Bool) (applyZone : β → Option ε) :
    List β → Option ε → List β × Option ε
  | [], firstErr => ([], firstErr)
  | c :: rest, firstErr =>
    if hasChanges c = true then
      let e := applyZone c
      let firstErr' :=
        match firstErr, e with
        | none, some err => some err
        | _, _ => firstErr
      let res := applyLoop hasChanges applyZone rest firstErr'
      (c :: res.1, res.2)
    else
      applyLoop hasChanges applyZone rest firstErr

/-- The error-aggregation part of ApplyChanges over the per-zone batches in
their iteration order: starts with no recorded error. -/
def applyChangeBatch {β ε : Type} (hasChanges : β → Bool) (applyZone : β → Option ε)
    (zoneChanges : List β) : List β × Option ε :=
  applyLoop hasChanges applyZone zoneChanges none

/-- goHasSuffix agrees with list-suffix containment. -/
theorem goHasSuffix_iff (s suffix : List Char) : goHasSuffix s suffix = true ↔ suffix <:+ s := by
  unfold goHasSuffix
  simp only [Bool.and_eq_true, decide_eq_true_eq]
  constructor
  · rintro ⟨-, hdrop⟩
    exact List.suffix_iff_eq_drop.mpr hdrop.symm
  · intro h
    exact ⟨h.length_le, (List.suffix_iff_eq_drop.mp h).symm⟩

example : goHasSuffix "foobar.org".toList "bar.org".toList = true := by decide

example : goTrimSuffix "foo.bar.org".toList ".bar.org".toList = "foo".toList := by decide

example : goAtoi "600".toList = some 600 := by decide

example : goAtoi "".toList = none := by decide

example : goAtoi "+42".toList = some 42 := by decide

example : goAtoi "-42".toList = some (-42) := by decide

example : goAtoi "4a".toList = none := by decide

example : goFormatInt 600 = "600".toList := by decide

example : goFormatInt (-5) = "-5".toList := by decide

example : goSplitFirst "@.example.com".toList '.' = "@".toList := by decide

example : endpointZoneName "foo.bar.org".toList ["bar.org".toList, "baz.org".toList]
    = "bar.org".toList := by decide

/-- The invariant of the endpointZoneName loop: the result is the running
match or a zone of the remaining list that is a suffix of the DNS name, it
is never shorter than the running match, and no matching zone of the
remaining list is longer than it. -/
theorem endpointZoneNameLoop_spec (n : List Char) (zones : List (List Char)) :
    ∀ m : List Char,
      (endpointZoneNameLoop n zones m = m ∨
        (endpointZoneNameLoop n zones m ∈ zones ∧ endpointZoneNameLoop n zones m <:+ n)) ∧
      m.length ≤ (endpointZoneNameLoop n zones m).length ∧
      ∀ z ∈ zones, z <:+ n → z.length ≤ (endpointZoneNameLoop n zones m).length := by
  induction zones with
  | nil =>
    intro m
    simp [endpointZoneNameLoop]
  | cons z rest ih =>
    intro m
    unfold endpointZoneNameLoop
    by_cases hc : goHasSuffix n z = true ∧ z.length > m.length
    · rw [if_pos hc]
      obtain ⟨h1, h2, h3⟩ := ih z
      refine ⟨?_, ?_, ?_⟩
      · rcases h1 with h | h
        · refine Or.inr ⟨?_, ?_⟩
          · rw [h]
            exact List.mem_cons_self z rest
          · rw [h]
            exact (goHasSuffix_iff n z).mp hc.1
        · right
          exact ⟨List.mem_cons_of_mem z h.1, h.2⟩
      · exact Nat.le_of_lt (Nat.lt_of_lt_of_le hc.2 h2)
      · intro w hw hsuf
        rcases List.mem_cons.mp hw with rfl | hw
        · exact h2
        · exact h3 w hw hsuf
    · rw [if_neg hc]
      obtain ⟨h1, h2, h3⟩ := ih m
      refine ⟨?_, h2, ?_⟩
      · rcases h1 with h | h
        · exact Or.inl h
        · exact Or.inr ⟨List.mem_cons_of_mem z h.1, h.2⟩
      · intro w hw hsuf
        rcases List.mem_cons.mp hw with rfl | hw
        · have hgs : goHasSuffix n w = true := (goHasSuffix_iff n w).mpr hsuf
          have hle : ¬ w.length > m.length := fun hgt => hc ⟨hgs, hgt⟩
          exact Nat.le_trans (Nat.le_of_not_lt hle) h2
        · exact h3 w hw hsuf

/-- C2: the zone matcher returns the longest zone of the list that is a
plain string suffix of the DNS name (equality counts as a suffix match),
and the empty string when no zone of the list is a suffix. -/
theorem claim_c2_zone_matcher_longest_suffix (n : List Char) (zones : List (List Char)) :
    ((∀ z ∈ zones, ¬ z <:+ n) → endpointZoneName n zones = []) ∧
    (∀ z ∈ zones, z <:+ n →
      endpointZoneName n zones ∈ zones ∧ endpointZoneName n zones <:+ n ∧
      z.length ≤ (endpointZoneName n zones).length) := by
  unfold endpointZoneName
  obtain ⟨h1, -, h3⟩ := endpointZoneNameLoop_spec n zones []
  constructor
  · intro hnone
    rcases h1 with h | h
    · exact h
    · exact absurd h.2 (hnone _ h.1)
  · intro z hz hsuf
    rcases h1 with h | h
    · have hlen := h3 z hz hsuf
      rw [h] at hlen
      have hz0 : z = [] := List.eq_nil_of_length_eq_zero (Nat.le_zero.mp hlen)
      refine ⟨?_, ?_, h3 z hz hsuf⟩
      · rw [h]
        exact hz0 ▸ hz
      · rw [h]
        exact List.nil_suffix
    · exact ⟨h.1, h.2, h3 z hz hsuf⟩

/-- C3: the record matcher returns the identifier of the first record whose
type and name match the query, content matching additionally required when
the strict flag is set, and the empty string when no record matches. -/
theorem claim_c3_record_matcher_first_match (recordName target recordType : List Char)
    (recs : List Record) (strict : Bool) :
    getIDforRecord recordName target recordType recs strict =
      (((recs.find? (fun r =>
          decide (r.rtype = recordType ∧ r.name = recordName ∧
            (strict = true → r.content = target)))).map Record.id).getD []) := by
  induction recs with
  | nil => rfl
  | cons r rest ih =>
    rw [List.find?_cons]
    by_cases h1 : r.rtype ≠ recordType ∨ r.name ≠ recordName
    · have hp : decide (r.rtype = recordType ∧ r.name = recordName ∧
          (strict = true → r.content = target)) = false := by
        simp only [decide_eq_false_iff_not]
        tauto
      rw [hp]
      unfold getIDforRecord
      rw [if_pos h1]
      exact ih
    · push_neg at h1
      obtain ⟨hty, hname⟩ := h1
      by_cases h2 : strict = true ∧ target ≠ r.content
      · have hp : decide (r.rtype = recordType ∧ r.name = recordName ∧
            (strict = true → r.content = target)) = false := by
          simp only [decide_eq_false_iff_not]
          intro hcontra
          exact h2.2 (hcontra.2.2 h2.1).symm
        rw [hp]
        unfold getIDforRecord
        rw [if_neg (by tauto), if_pos h2]
        exact ih
      · have hp : decide (r.rtype = recordType ∧ r.name = recordName ∧
            (strict = true → r.content = target)) = true := by
          simp only [decide_eq_true_eq]
          refine ⟨hty, hname, fun hs => ?_⟩
          by_contra hne
          exact h2 ⟨hs, fun he => hne he.symm⟩
        rw [hp]
        unfold getIDforRecord
        rw [if_neg (by tauto), if_neg h2]
        rfl

/-- The converter as a filter of the endpoints without targets followed by
a map: one record per remaining endpoint. -/
theorem convertToPorkbunRecord_eq (recs : List Record) (endpoints : List Endpoint)
    (zoneName : List Char) (strict : Bool) :
    convertToPorkbunRecord recs endpoints zoneName strict =
      (endpoints.filter (fun ep => decide (ep.targets ≠ []))).map (fun ep =>
        let t0 := ep.targets.headD []
        let target :=
          if ep.recordType = recordTypeTXT ∧ goStartsWith t0 ("\"heritage=".toList) = true then
            goTrimChar t0 '"'
          else t0
        { rtype := ep.recordType,
          name := if ep.dnsName = zoneName then [] else goTrimSuffix ep.dnsName ('.' :: zoneName),
          ttl := goFormatInt ep.recordTTL,
          content := target,
          id := getIDforRecord ep.dnsName target ep.recordType recs strict }) := by
  induction endpoints with
  | nil => rfl
  | cons ep rest ih =>
    cases hts : ep.targets with
    | nil =>
      unfold convertToPorkbunRecord
      rw [hts, List.filter_cons]
      simpa [hts] using ih
    | cons t0 ts =>
      unfold convertToPorkbunRecord
      rw [hts, List.filter_cons]
      simpa [hts] using ih

/-- C1 (amended): for every endpoint with at least one target the converter
emits exactly one record, whose name is empty when the DNS name equals the
zone and otherwise the DNS name with the "."+zone suffix stripped, whose
content is the first target value (with the surrounding quote characters
stripped when the type is TXT and the value begins with a quoted heritage
marker), and whose TTL is the decimal string encoding of the endpoint TTL;
later targets are dropped, and an endpoint with no targets produces no
record and no error. -/
theorem claim_c1_converter_shape (recs : List Record) (endpoints : List Endpoint)
    (zoneName : List Char) (strict : Bool) :
    convertToPorkbunRecord recs endpoints zoneName strict =
      (endpoints.filter (fun ep => decide (ep.targets ≠ []))).map (fun ep =>
        let t0 := ep.targets.headD []
        let target :=
          if ep.recordType = recordTypeTXT ∧ goStartsWith t0 ("\"heritage=".toList) = true then
            goTrimChar t0 '"'
          else t0
        { rtype := ep.recordType,
          name := if ep.dnsName = zoneName then [] else goTrimSuffix ep.dnsName ('.' :: zoneName),
          ttl := goFormatInt ep.recordTTL,
          content := target,
          id := getIDforRecord ep.dnsName target ep.recordType recs strict }) :=
  convertToPorkbunRecord_eq recs endpoints zoneName strict

/-- C1 counterexample: a TXT endpoint whose single target is a quoted
heritage marker is emitted with the quotes stripped, so the record content
differs from the endpoint's first target value. -/
theorem claim_c1_counterexample :
    (convertToPorkbunRecord []
        [{ dnsName := "foo.baz.org".toList,
           targets := ["\"heritage=external-dns,external-dns/owner=default\"".toList],
           recordType := "TXT".toList, recordTTL := 600 }]
        "baz.org".toList false).map Record.content
      = ["heritage=external-dns,external-dns/owner=default".toList] ∧
    "heritage=external-dns,external-dns/owner=default".toList
      ≠ "\"heritage=external-dns,external-dns/owner=default\"".toList := by
  decide

/-- C6 (amended): for an endpoint the zone matcher assigns to zone z, the
emitted record name is empty at the apex; when the DNS name ends with
"."+z the name is the DNS name with that suffix removed, so that
name ++ "." ++ z reconstructs the DNS name; but when the DNS name merely
ends with z without the separating dot, the name is the unchanged DNS name
and still ends with the zone suffix. -/
theorem claim_c6_zone_relative_name (recs : List Record) (ep : Endpoint)
    (zones : List (List Char)) (zone : List Char) (strict : Bool)
    (_hz : endpointZoneName ep.dnsName zones = zone) (hne : ep.targets ≠ []) :
    ∀ r ∈ convertToPorkbunRecord recs [ep] zone strict,
      (ep.dnsName = zone → r.name = []) ∧
      (ep.dnsName ≠ zone → ('.' :: zone) <:+ ep.dnsName →
        r.name ++ ('.' :: zone) = ep.dnsName) ∧
      (ep.dnsName ≠ zone → ¬ ('.' :: zone) <:+ ep.dnsName → r.name = ep.dnsName) := by
  obtain ⟨t0, ts, hts⟩ : ∃ t0 ts, ep.targets = t0 :: ts := by
    cases h : ep.targets with
    | nil => exact absurd h hne
    | cons a b => exact ⟨a, b, rfl⟩
  intro r hr
  unfold convertToPorkbunRecord at hr
  rw [hts] at hr
  simp only [convertToPorkbunRecord, List.mem_singleton] at hr
  subst hr
  refine ⟨?_, ?_, ?_⟩
  · intro heq
    simp [heq]
  · intro hne2 hsuf
    simp only [if_neg hne2]
    unfold goTrimSuffix
    rw [if_pos ((goHasSuffix_iff _ _).mpr hsuf)]
    exact List.suffix_iff_eq_append.mp hsuf
  · intro hne2 hnsuf
    simp only [if_neg hne2]
    unfold goTrimSuffix
    rw [if_neg (fun hgs => hnsuf ((goHasSuffix_iff _ _).mp hgs))]

/-- The endpoint of the C6 witness. -/
def c6ep : Endpoint :=
  { dnsName := "foo.bar.org".toList, targets := ["5.5.5.5".toList],
    recordType := "A".toList, recordTTL := 600 }

/-- The record the converter emits for the C6 witness endpoint. -/
def c6rec : Record :=
  { id := [], name := "foo".toList, rtype := "A".toList,
    content := "5.5.5.5".toList, ttl := "600".toList }

/-- C6 witness: for foo.bar.org in zone bar.org the emitted name "foo"
reconstructs the DNS name. -/
theorem claim_c6_witness :
    Porkbun.c6rec.name ++ ('.' :: "bar.org".toList) = "foo.bar.org".toList := by
  have h := claim_c6_zone_relative_name [] c6ep ["bar.org".toList] "bar.org".toList false
    (by decide) (by decide) c6rec (by decide)
  exact h.2.1 (by decide) ((goHasSuffix_iff _ _).mp (by decide))

/-- C6 counterexample: "foobar.org" is assigned to zone "bar.org" by the
zone matcher, yet the converter emits the record name "foobar.org", which
still ends with the zone suffix. -/
theorem claim_c6_counterexample :
    endpointZoneName "foobar.org".toList ["bar.org".toList] = "bar.org".toList ∧
    (convertToPorkbunRecord []
        [{ dnsName := "foobar.org".toList, targets := ["5.5.5.5".toList],
           recordType := "A".toList, recordTTL := 600 }]
        "bar.org".toList false).map Record.name
      = ["foobar.org".toList] ∧
    goHasSuffix "foobar.org".toList "bar.org".toList = true := by
  decide

/-- The existing porkbun record of the C7 theorems: the API returns fully
qualified names. -/
def c7rec : Record :=
  { id := "10".toList, name := "foo.bar.org".toList, rtype := "A".toList,
    content := "5.5.5.5".toList, ttl := "600".toList }

/-- The endpoint of the C7 theorems. -/
def c7ep : Endpoint :=
  { dnsName := "foo.bar.org".toList, targets := ["5.5.5.5".toList],
    recordType := "A".toList, recordTTL := 600 }

/-- C7 (amended): the converter resolves the record identifier by querying
the record matcher with the endpoint's fully qualified DNS name, not with
the zone-relative name emitted in the resulting record. -/
theorem claim_c7_id_lookup_uses_fqdn (recs : List Record) (ep : Endpoint) (zone : List Char)
    (strict : Bool) (t0 : List Char) (ts : List (List Char)) (ht : ep.targets = t0 :: ts) :
    (convertToPorkbunRecord recs [ep] zone strict).map Record.id =
      [getIDforRecord ep.dnsName
        (if ep.recordType = recordTypeTXT ∧ goStartsWith t0 ("\"heritage=".toList) = true then
          goTrimChar t0 '"'
        else t0)
        ep.recordType recs strict] := by
  unfold convertToPorkbunRecord
  rw [ht]
  simp [convertToPorkbunRecord]

/-- C7 witness: the identifier of the emitted record for foo.bar.org is the
one the matcher finds under the fully qualified name. -/
theorem claim_c7_witness :
    (convertToPorkbunRecord [c7rec] [c7ep] "bar.org".toList false).map Record.id
      = ["10".toList] := by
  have h := claim_c7_id_lookup_uses_fqdn [c7rec] c7ep "bar.org".toList false
    ("5.5.5.5".toList) [] rfl
  rw [h]
  decide

/-- C7 counterexample: with an existing record stored under the fully
qualified name, the emitted record carries the zone-relative name "foo"
but the identifier found under the FQDN; querying the matcher with the
zone-relative name finds nothing. -/
theorem claim_c7_counterexample :
    (convertToPorkbunRecord [c7rec] [c7ep] "bar.org".toList false).map
        (fun r => (r.name, r.id))
      = [("foo".toList, "10".toList)] ∧
    getIDforRecord "foo".toList "5.5.5.5".toList "A".toList [c7rec] false = [] ∧
    getIDforRecord "foo.bar.org".toList "5.5.5.5".toList "A".toList [c7rec] false
      = "10".toList := by
  decide

/-- C8: for a TXT endpoint whose first target is wrapped in a literal
quoted heritage marker the emitted content is that value with the
surrounding quote characters stripped; for a non-TXT endpoint, or one
whose first target does not begin with a quoted heritage marker, the first
target is emitted unchanged. -/
theorem claim_c8_heritage_quote_stripping (recs : List Record) (ep : Endpoint)
    (zone : List Char) (strict : Bool) (t0 : List Char) (ts : List (List Char))
    (ht : ep.targets = t0 :: ts) :
    ((ep.recordType = recordTypeTXT ∧ goStartsWith t0 ("\"heritage=".toList) = true ∧
        goHasSuffix t0 ("\"".toList) = true) →
      (convertToPorkbunRecord recs [ep] zone strict).map Record.content
        = [goTrimChar t0 '"']) ∧
    ((ep.recordType ≠ recordTypeTXT ∨ goStartsWith t0 ("\"heritage=".toList) = false) →
      (convertToPorkbunRecord recs [ep] zone strict).map Record.content = [t0]) := by
  have hmap : (convertToPorkbunRecord recs [ep] zone strict).map Record.content =
      [if ep.recordType = recordTypeTXT ∧ goStartsWith t0 ("\"heritage=".toList) = true then
        goTrimChar t0 '"'
      else t0] := by
    unfold convertToPorkbunRecord
    rw [ht]
    rfl
  constructor
  · intro hcond
    rw [hmap, if_pos ⟨hcond.1, hcond.2.1⟩]
  · intro hcond
    have hneg : ¬ (ep.recordType = recordTypeTXT ∧
        goStartsWith t0 ("\"heritage=".toList) = true) := by
      rcases hcond with h | h
      · exact fun hc => h hc.1
      · exact fun hc => by rw [h] at hc; exact Bool.false_ne_true hc.2
    rw [hmap, if_neg hneg]

/-- The endpoint of the C8 witness: a TXT ownership record whose target is
wrapped in quotes. -/
def c8ep : Endpoint :=
  { dnsName := "foo.baz.org".toList,
    targets := ["\"heritage=external-dns,external-dns/owner=default\"".toList],
    recordType := "TXT".toList, recordTTL := 600 }

/-- C8 witness: the quoted heritage target of a TXT endpoint is emitted
with the quotes stripped. -/
theorem claim_c8_witness :
    (convertToPorkbunRecord [] [c8ep] "baz.org".toList false).map Record.content
      = [goTrimChar ("\"heritage=external-dns,external-dns/owner=default\"".toList) '"'] := by
  have h := claim_c8_heritage_quote_stripping [] c8ep "baz.org".toList false
    ("\"heritage=external-dns,external-dns/owner=default\"".toList) [] rfl
  exact h.1 (by decide)

/-- The Go-map lookup of removeNoopTXTUpdates as a search of the reversed
UpdateOld list: a map insert overwrites, so the last inserted entry under
the key wins. -/
theorem oldMapLookup_eq_find? (updateOld : List Endpoint) (name t0 : List Char) :
    oldMapLookup updateOld name t0 =
      updateOld.reverse.find? (fun old =>
        decide (old.recordType = recordTypeTXT ∧ old.dnsName = name ∧
          old.targets.head? = some t0)) := by
  suffices h : ∀ (l : List Endpoint) (acc : Option Endpoint),
      l.foldl (fun acc ep =>
          if ep.recordType = recordTypeTXT ∧ ep.dnsName = name ∧ ep.targets.head? = some t0 then
            some ep
          else acc) acc =
        match l.reverse.find? (fun old =>
            decide (old.recordType = recordTypeTXT ∧ old.dnsName = name ∧
              old.targets.head? = some t0)) with
        | some x => some x
        | none => acc by
    rw [oldMapLookup, h updateOld none]
    cases updateOld.reverse.find? (fun old =>
        decide (old.recordType = recordTypeTXT ∧ old.dnsName = name ∧
          old.targets.head? = some t0)) <;> rfl
  intro l
  induction l with
  | nil => intro acc; rfl
  | cons x xs ih =>
    intro acc
    rw [List.foldl_cons, ih, List.reverse_cons, List.find?_append]
    cases hxs : xs.reverse.find? (fun old =>
        decide (old.recordType = recordTypeTXT ∧ old.dnsName = name ∧
          old.targets.head? = some t0)) with
    | some y => rfl
    | none =>
      by_cases hx : x.recordType = recordTypeTXT ∧ x.dnsName = name ∧
          x.targets.head? = some t0
      · simp [hx]
      · simp [hx]

/-- C4 (amended): the suppressor leaves create, delete and update-old
unchanged and filters update-new in place: a TXT entry with at least one
target is removed exactly when the last update-old TXT entry with the same
DNS name and the same first target value has an equal TTL; all other
entries are kept in their original order. -/
theorem claim_c4_noop_suppressor (c : Changes) :
    (removeNoopTXTUpdates c).create = c.create ∧
    (removeNoopTXTUpdates c).updateOld = c.updateOld ∧
    (removeNoopTXTUpdates c).delete = c.delete ∧
    (removeNoopTXTUpdates c).updateNew = c.updateNew.filter (fun ep =>
      match ep.targets with
      | [] => true
      | t0 :: _ =>
        if ep.recordType = recordTypeTXT then
          match c.updateOld.reverse.find? (fun old =>
              decide (old.recordType = recordTypeTXT ∧ old.dnsName = ep.dnsName ∧
                old.targets.head? = some t0)) with
          | some old => decide (old.recordTTL ≠ ep.recordTTL)
          | none => true
        else true) := by
  have hpt : ∀ ep, keepUpdateNew c.updateOld ep = (fun ep =>
      match ep.targets with
      | [] => true
      | t0 :: _ =>
        if ep.recordType = recordTypeTXT then
          match c.updateOld.reverse.find? (fun old =>
              decide (old.recordType = recordTypeTXT ∧ old.dnsName = ep.dnsName ∧
                old.targets.head? = some t0)) with
          | some old => decide (old.recordTTL ≠ ep.recordTTL)
          | none => true
        else true) ep := by
    intro ep
    unfold keepUpdateNew
    rw [oldMapLookup_eq_find?]
    cases hts : ep.targets with
    | nil => simp [hts]
    | cons t0 ts =>
      by_cases hT : ep.recordType = recordTypeTXT
      · simp [hts, hT]
      · simp [hts, hT]
  unfold removeNoopTXTUpdates
  by_cases h : c.updateOld = [] ∨ c.updateNew = []
  · rw [if_pos h]
    refine ⟨rfl, rfl, rfl, ?_⟩
    rcases h with h | h
    · rw [List.filter_eq_self.mpr]
      intro ep _
      cases hts : ep.targets with
      | nil => rfl
      | cons t0 ts =>
        simp only [h, List.reverse_nil, List.find?_nil]
        split <;> rfl
    · rw [h]
      rfl
  · rw [if_neg h]
    exact ⟨rfl, rfl, rfl, List.filter_congr (fun ep _ => hpt ep)⟩

/-- An update-old TXT entry with TTL 300, overwritten in the oldMap by a
later entry with TTL 600 under the same key. -/
def c4oldA : Endpoint :=
  { dnsName := "txt.example.com".toList, targets := ["v=1".toList],
    recordType := "TXT".toList, recordTTL := 300 }

/-- The later update-old TXT entry under the same key, TTL 600. -/
def c4oldB : Endpoint :=
  { dnsName := "txt.example.com".toList, targets := ["v=1".toList],
    recordType := "TXT".toList, recordTTL := 600 }

/-- The update-new TXT entry with TTL 300. -/
def c4new : Endpoint :=
  { dnsName := "txt.example.com".toList, targets := ["v=1".toList],
    recordType := "TXT".toList, recordTTL := 300 }

/-- The C4 counterexample batch. -/
def c4changes : Changes :=
  { create := [], updateOld := [c4oldA, c4oldB], updateNew := [c4new], delete := [] }

/-- C4 counterexample: some update-old TXT entry (the first) has the same
DNS name, the same first target and an equal TTL as the update-new entry,
so the claim says the entry is removed; the code keys the lookup on the
last entry, whose TTL differs, and keeps it. -/
theorem claim_c4_counterexample :
    (removeNoopTXTUpdates c4changes).updateNew = [c4new] ∧
    c4oldA ∈ c4changes.updateOld ∧
    c4oldA.recordType = recordTypeTXT ∧
    c4oldA.dnsName = c4new.dnsName ∧
    c4oldA.targets.head? = c4new.targets.head? ∧
    c4new.targets ≠ [] ∧
    c4new.recordType = recordTypeTXT ∧
    c4oldA.recordTTL = c4new.recordTTL := by
  decide

/-- The apply loop with an arbitrary already-recorded error: it visits
every zone batch with changes and its result is the recorded error, or
else the first error the per-zone applications produce. -/
theorem applyLoop_spec {β ε : Type} (hasChanges : β → Bool) (applyZone : β → Option ε) :
    ∀ (zs : List β) (fe : Option ε),
      applyLoop hasChanges applyZone zs fe =
        (zs.filter hasChanges,
          match fe with
          | some e => some e
          | none => (zs.filter hasChanges).findSome? applyZone) := by
  intro zs
  induction zs with
  | nil =>
    intro fe
    cases fe <;> rfl
  | cons c rest ih =>
    intro fe
    unfold applyLoop
    by_cases hc : hasChanges c = true
    · rw [if_pos hc]
      cases he : applyZone c with
      | none =>
        cases fe <;> simp [ih, List.filter_cons, hc, List.findSome?_cons, he]
      | some err =>
        cases fe <;> simp [ih, List.filter_cons, hc, List.findSome?_cons, he]
    · rw [if_neg hc]
      rw [ih]
      have hcf : hasChanges c = false := Bool.eq_false_iff.mpr hc
      simp [List.filter_cons, hcf]

/-- C5: over the per-zone batches in their iteration order, the apply loop
invokes the per-zone application for every batch with changes (a failure
never stops the remaining zones from being attempted), returns the first
error encountered across all attempted zones, and returns no error exactly
when every attempted zone succeeds. -/
theorem claim_c5_first_error_all_zones_attempted {β ε : Type} (hasChanges : β → Bool)
    (applyZone : β → Option ε) (zoneChanges : List β) :
    (applyChangeBatch hasChanges applyZone zoneChanges).1 = zoneChanges.filter hasChanges ∧
    (applyChangeBatch hasChanges applyZone zoneChanges).2
      = (zoneChanges.filter hasChanges).findSome? applyZone ∧
    ((applyChangeBatch hasChanges applyZone zoneChanges).2 = none ↔
      ∀ c ∈ zoneChanges.filter hasChanges, applyZone c = none) := by
  unfold applyChangeBatch
  rw [applyLoop_spec]
  exact ⟨rfl, rfl, List.findSome?_eq_none_iff⟩

/-- deleteDnsRecords stops at the first record whose ID does not parse:
all earlier records have had their call issued, the failing record and the
later ones have not. -/
theorem deleteDnsRecords_parse_abort {ε : Type} (call : Int → Option ε) (bad : Record)
    (after : List Record) (hbad : goAtoi bad.id = none) :
    ∀ before : List Record,
      (∀ r ∈ before, ∃ i, goAtoi r.id = some i ∧ call i = none) →
      deleteDnsRecords call (before ++ bad :: after)
        = (before.filterMap (fun r => goAtoi r.id), .parseFailure bad) := by
  intro before
  induction before with
  | nil =>
    intro _
    simp [deleteDnsRecords, hbad]
  | cons r rest ih =>
    intro h
    obtain ⟨i, hpi, hci⟩ := h r (List.mem_cons_self r rest)
    have hrest := ih (fun x hx => h x (List.mem_cons_of_mem r hx))
    simp [deleteDnsRecords, hpi, hci, hrest, List.filterMap_cons]

/-- updateDnsRecords stops at the first record whose ID does not parse, in
the same way as deleteDnsRecords. -/
theorem updateDnsRecords_parse_abort {ε : Type} (call : Int → Record → Option ε) (bad : Record)
    (after : List Record) (hbad : goAtoi bad.id = none) :
    ∀ before : List Record,
      (∀ r ∈ before, ∃ i, goAtoi r.id = some i ∧ call i r = none) →
      updateDnsRecords call (before ++ bad :: after)
        = (before.filterMap (fun r => goAtoi r.id), .parseFailure bad) := by
  intro before
  induction before with
  | nil =>
    intro _
    simp [updateDnsRecords, hbad]
  | cons r rest ih =>
    intro h
    obtain ⟨i, hpi, hci⟩ := h r (List.mem_cons_self r rest)
    have hrest := ih (fun x hx => h x (List.mem_cons_of_mem r hx))
    simp [updateDnsRecords, hpi, hci, hrest, List.filterMap_cons]

/-- C9: when a record's identifier does not parse as a decimal integer,
the delete and the update operation return an error at that record,
issue no provider call for it or for any later record, and have already
issued the calls for every earlier record. -/
theorem claim_c9_unparseable_id_aborts {ε : Type} (dcall : Int → Option ε)
    (ucall : Int → Record → Option ε) (before : List Record) (bad : Record)
    (after : List Record)
    (hd : ∀ r ∈ before, ∃ i, goAtoi r.id = some i ∧ dcall i = none)
    (hu : ∀ r ∈ before, ∃ i, goAtoi r.id = some i ∧ ucall i r = none)
    (hbad : goAtoi bad.id = none) :
    deleteDnsRecords dcall (before ++ bad :: after)
      = (before.filterMap (fun r => goAtoi r.id), .parseFailure bad) ∧
    updateDnsRecords ucall (before ++ bad :: after)
      = (before.filterMap (fun r => goAtoi r.id), .parseFailure bad) :=
  ⟨deleteDnsRecords_parse_abort dcall bad after hbad before hd,
    updateDnsRecords_parse_abort ucall bad after hbad before hu⟩

/-- A record with a numeric identifier, issued before the failing one. -/
def c9r10 : Record :=
  { id := "10".toList, name := "a".toList, rtype := "A".toList,
    content := "1.2.3.4".toList, ttl := "600".toList }

/-- The failing record: its identifier is the empty string, assigned when
no existing record matched. -/
def c9rbad : Record :=
  { id := [], name := "b".toList, rtype := "A".toList,
    content := "5.6.7.8".toList, ttl := "600".toList }

/-- A record after the failing one, never issued. -/
def c9r11 : Record :=
  { id := "11".toList, name := "c".toList, rtype := "A".toList,
    content := "9.9.9.9".toList, ttl := "600".toList }

/-- C9 witness: with an always-succeeding client, the list [c9r10, c9rbad,
c9r11] is processed up to the empty identifier: the call for id 10 was
issued, the operation fails at c9rbad, and no call is issued for it or for
c9r11. -/
theorem claim_c9_witness :
    deleteDnsRecords (fun _ => (none : Option Unit)) ([c9r10] ++ c9rbad :: [c9r11])
      = ([c9r10].filterMap (fun r => goAtoi r.id), .parseFailure c9rbad) ∧
    updateDnsRecords (fun _ _ => (none : Option Unit)) ([c9r10] ++ c9rbad :: [c9r11])
      = ([c9r10].filterMap (fun r => goAtoi r.id), .parseFailure c9rbad) :=
  claim_c9_unparseable_id_aborts (fun _ => (none : Option Unit)) (fun _ _ => none)
    [c9r10] c9rbad [c9r11]
    (fun r hr => by
      rw [List.mem_singleton] at hr
      subst hr
      exact ⟨10, by decide, rfl⟩)
    (fun r hr => by
      rw [List.mem_singleton] at hr
      subst hr
      exact ⟨10, by decide, rfl⟩)
    (by decide)

/-- C10: projecting provider records into endpoints drops no record and
produces no error: every record yields an endpoint at the same position,
and a record whose TTL string does not parse as a decimal integer yields
its endpoint with the default TTL 600. -/
theorem claim_c10_ttl_parse_fallback (domain : List Char) (recs : List Record) :
    (recordsToEndpoints domain recs).length = recs.length ∧
    ∀ (i : Nat) (r : Record), recs[i]? = some r → goAtoi r.ttl = none →
      (recordsToEndpoints domain recs)[i]? = some
        { dnsName := if goSplitFirst r.name '.' = "@".toList then domain else r.name,
          recordType := r.rtype, recordTTL := 600, targets := [r.content] } := by
  constructor
  · simp [recordsToEndpoints]
  · intro i r h httl
    unfold recordsToEndpoints
    rw [List.getElem?_map, h]
    simp [httl]

end Porkbun
